import Mathlib

/-!
Verification of the Continuity knowledge ingestion and retrieval engine.

This file gives a shallow embedding of the engine's TypeScript sources:
the XML directive parser (`src/parser.ts`), the versioned record store
(`src/storage.ts`), the vector similarity index (`src/vector.ts`), the
RAGs retrieval layer (`src/rags.ts`) and the dispatcher
(`ContinuityAPI.processResponse` in `src/api.ts`), together with proofs
of the specified properties.

Modelling conventions:
* JavaScript strings are `String`/`List Char`; regex scanning is embedded
  as explicit left-to-right scanning functions with the same
  leftmost-match, lazy-content semantics as the source regexes.
* `Date.now` timestamps are a logical clock carried in the system state;
  every `new Date()` call draws the current clock value and advances it,
  so successive draws are strictly increasing.
* `uuidv4()` is modelled as an injective fresh-string generator driven by
  a counter in the system state.
* Floating point numbers are modelled exactly: letter-frequency vectors
  are rational, and cosine similarity scores are real numbers (the square
  root forces `ℝ`).
* `async` functions are sequentialised: each operation, including the
  fire-and-forget `cleanupOldEntries` call inside `createSummary`, runs
  to completion before the next one starts (single-threaded event loop,
  in-memory adapter).
-/

/-- Priority levels (`Priority` enum in `types.ts`: low / medium / high). -/
inductive Priority where
  | low
  | medium
  | high
deriving DecidableEq

/-- The JS enum value of a priority (its string representation). -/
def Priority.str : Priority → String
  | .low => "low"
  | .medium => "medium"
  | .high => "high"

/-- Supported XML command types (`CommandType` in `types.ts`). -/
inductive CommandType where
  | addSummary
  | editSummary
  | deleteSummary
  | querySummary
  | saveUserData
  | retrieveUserData
deriving DecidableEq

/-- Parsed command parameters (`Command['params']` in `types.ts`).
`none` models a JS field that is `undefined` (absent). -/
structure CommandParams where
  lineNumber : Option String
  category : Option String
  priority : Option Priority
  context : Option String
  id : Option String
  key : Option String
  value : Option String
  query : Option String
  limit : Option Nat
deriving DecidableEq

/-- A `CommandParams` with every field absent. -/
def CommandParams.empty : CommandParams :=
  ⟨none, none, none, none, none, none, none, none, none⟩

/-- A parsed XML command (`Command` in `types.ts`). -/
structure Command where
  type : CommandType
  params : CommandParams
deriving DecidableEq

/-- Truthiness of an optional JS string: `undefined` and `""` are falsy
(emptiness is tested on the character list). -/
def optTruthyS : Option String → Bool
  | none => false
  | some s => !s.data.isEmpty

/-- Truthiness of an optional priority: the enum values are nonempty
strings, so presence alone decides truthiness. -/
def optTruthyP : Option Priority → Bool
  | none => false
  | some _ => true

/-! ## Directive parser (`XmlParser` in `parser.ts`) -/

/-- The tag name of a command type, as matched (case-sensitively) by the
regex `<(add_summary|edit_summary|delete_summary|query_summary|save_user_data|retrieve_user_data)>`. -/
def tagName : CommandType → List Char
  | .addSummary => "add_summary".data
  | .editSummary => "edit_summary".data
  | .deleteSummary => "delete_summary".data
  | .querySummary => "query_summary".data
  | .saveUserData => "save_user_data".data
  | .retrieveUserData => "retrieve_user_data".data

/-- The opening tag `<name>` of a command type. -/
def openTag (t : CommandType) : List Char := '<' :: (tagName t ++ ['>'])

/-- The closing tag `</name>` of a command type. -/
def closeTag (t : CommandType) : List Char := '<' :: '/' :: (tagName t ++ ['>'])

/-- The command alternatives in the order the regex alternation lists them. -/
def commandTypes : List CommandType :=
  [.addSummary, .editSummary, .deleteSummary, .querySummary, .saveUserData, .retrieveUserData]

/-- Try to match one of the opening command tags at the head of `s`;
on success return the command type and the text after the opening tag. -/
def tryOpen (s : List Char) : Option (CommandType × List Char) :=
  commandTypes.findSome? fun t =>
    if (openTag t).isPrefixOf s then some (t, s.drop (openTag t).length) else none

/-- Split `s` at the first occurrence of `pat` (a nonempty tag):
returns the text before the occurrence and the text after it.  This is
the lazy `([\s\S]*?)` content capture up to the first closing tag. -/
def splitAtSub (pat : List Char) : List Char → Option (List Char × List Char)
  | [] => none
  | c :: cs =>
    if pat.isPrefixOf (c :: cs) then some ([], (c :: cs).drop pat.length)
    else match splitAtSub pat cs with
      | some (a, b) => some (c :: a, b)
      | none => none

/-- One step of the global regex scan
`/<(tag…)>([\s\S]*?)<\/\1>/g`: find the leftmost position where an
opening command tag matches and a matching closing tag follows.  Returns
`(pre, type, content, rest)`: the text before the match, the matched
command type, the lazily captured content, and the text after the
closing tag.  When an opening tag matches but no closing tag follows,
the engine moves on to the next position, exactly as the regex engine
does. -/
def scanCommand : List Char → Option (List Char × CommandType × List Char × List Char)
  | [] => none
  | c :: cs =>
    match tryOpen (c :: cs) with
    | some (t, afterOpen) =>
      match splitAtSub (closeTag t) afterOpen with
      | some (content, rest) => some ([], t, content, rest)
      | none =>
        (scanCommand cs).map fun pr => (c :: pr.1, pr.2.1, pr.2.2.1, pr.2.2.2)
    | none =>
      (scanCommand cs).map fun pr => (c :: pr.1, pr.2.1, pr.2.2.1, pr.2.2.2)

theorem splitAtSub_length {pat : List Char} (hp : pat ≠ []) :
    ∀ {s a b : List Char}, splitAtSub pat s = some (a, b) →
      a.length + b.length < s.length := by
  intro s
  induction s with
  | nil => intro a b h; simp [splitAtSub] at h
  | cons c cs ih =>
    intro a b h
    by_cases hpre : pat.isPrefixOf (c :: cs)
    · rw [splitAtSub, if_pos hpre] at h
      obtain ⟨rfl, rfl⟩ : ([] : List Char) = a ∧ (c :: cs).drop pat.length = b := by
        constructor <;> [exact congrArg Prod.fst (Option.some.inj h);
          exact congrArg Prod.snd (Option.some.inj h)]
      have hple : pat.length ≤ (c :: cs).length :=
        (List.isPrefixOf_iff_prefix.mp hpre).length_le
      have hpos : 0 < pat.length := List.length_pos.mpr hp
      simp only [List.length_nil, List.length_drop, Nat.zero_add]
      omega
    · rw [splitAtSub, if_neg hpre] at h
      cases hrec : splitAtSub pat cs with
      | none => rw [hrec] at h; exact absurd h (by simp)
      | some p =>
        rw [hrec] at h
        obtain ⟨a', b'⟩ := p
        have := Option.some.inj h
        have ha : c :: a' = a := congrArg Prod.fst this
        have hb : b' = b := congrArg Prod.snd this
        subst ha; subst hb
        have := ih hrec
        simp only [List.length_cons]
        omega

theorem scanCommand_length :
    ∀ {s pre content rest : List Char} {t : CommandType},
      scanCommand s = some (pre, t, content, rest) →
      pre.length + rest.length < s.length := by
  intro s
  induction s with
  | nil => intro pre content rest t h; simp [scanCommand] at h
  | cons c cs ih =>
    intro pre content rest t h
    rw [scanCommand] at h
    cases hopen : tryOpen (c :: cs) with
    | some p =>
      obtain ⟨t', afterOpen⟩ := p
      rw [hopen] at h
      dsimp only at h
      cases hsplit : splitAtSub (closeTag t') afterOpen with
      | some q =>
        obtain ⟨content', rest'⟩ := q
        rw [hsplit] at h
        have := Option.some.inj h
        have hpre : ([] : List Char) = pre := congrArg Prod.fst this
        have hrest : rest' = rest := congrArg (fun x => x.2.2.2) this
        subst hpre; subst hrest
        have hcl : closeTag t' ≠ [] := by cases t' <;> simp [closeTag]
        have h1 := splitAtSub_length hcl hsplit
        -- afterOpen is a suffix of c :: cs (drop of the opening tag)
        have h2 : afterOpen.length ≤ (c :: cs).length := by
          have : tryOpen (c :: cs) = some (t', afterOpen) := hopen
          unfold tryOpen at this
          obtain ⟨u, hu, hv⟩ := List.exists_of_findSome?_eq_some this
          by_cases hm : (openTag u).isPrefixOf (c :: cs)
          · rw [if_pos hm] at hv
            have := Option.some.inj hv
            have hdrop : (c :: cs).drop (openTag u).length = afterOpen :=
              congrArg Prod.snd this
            rw [← hdrop]
            simp [List.length_drop]
          · rw [if_neg hm] at hv; exact absurd hv (by simp)
        simp only [List.length_nil, Nat.zero_add]
        omega
      | none =>
        rw [hsplit] at h
        cases hrec : scanCommand cs with
        | none => rw [hrec] at h; exact absurd h (by simp)
        | some pr =>
          rw [hrec] at h
          obtain ⟨p1, t1, c1, r1⟩ := pr
          have := Option.some.inj h
          have hp : c :: p1 = pre := congrArg Prod.fst this
          have hr : r1 = rest := congrArg (fun x => x.2.2.2) this
          subst hp; subst hr
          have := ih hrec
          simp only [List.length_cons]
          omega
    | none =>
      rw [hopen] at h
      dsimp only at h
      cases hrec : scanCommand cs with
      | none => rw [hrec] at h; exact absurd h (by simp)
      | some pr =>
        rw [hrec] at h
        obtain ⟨p1, t1, c1, r1⟩ := pr
        have := Option.some.inj h
        have hp : c :: p1 = pre := congrArg Prod.fst this
        have hr : r1 = rest := congrArg (fun x => x.2.2.2) this
        subst hp; subst hr
        have := ih hrec
        simp only [List.length_cons]
        omega

/-- Characters the regex `.` does not match (newline class). -/
def isNewlineCh (c : Char) : Bool :=
  c = '\n' || c = '\r' || c.val = 0x2028 || c.val = 0x2029

/-- Case-insensitive prefix test: does `s` start with `pat` (given in
lowercase), ignoring case?  Models the `i` flag on the field regexes. -/
def ciStarts (pat : List Char) (s : List Char) : Bool :=
  pat.isPrefixOf ((s.take pat.length).map Char.toLower)

/-- Lazily capture the content between the current position and the
first occurrence of the closing tag `closeT` (case-insensitive).  When
`allowNl` is false the capture group is `(.*?)` and a newline character
makes the match fail at this starting position (the engine then resumes
scanning one character further to the right). -/
def grabContent (closeT : List Char) (allowNl : Bool) : List Char → Option (List Char)
  | [] => none
  | c :: cs =>
    if ciStarts closeT (c :: cs) then some []
    else if allowNl || !isNewlineCh c then (grabContent closeT allowNl cs).map (c :: ·)
    else none

/-- Find the leftmost match of `/<name>(content)<\/name>/i` in `s` and
return the captured content.  `openT`/`closeT` are the lowercase tag
character lists; `allowNl` distinguishes `([\s\S]*?)` captures from
`(.*?)` captures. -/
def extractField (openT closeT : List Char) (allowNl : Bool) : List Char → Option (List Char)
  | [] => none
  | c :: cs =>
    if ciStarts openT (c :: cs) then
      match grabContent closeT allowNl ((c :: cs).drop openT.length) with
      | some content => some content
      | none => extractField openT closeT allowNl cs
    else extractField openT closeT allowNl cs

/-- JS `String.prototype.trim`. -/
def trimWs (l : List Char) : List Char :=
  ((l.dropWhile Char.isWhitespace).reverse.dropWhile Char.isWhitespace).reverse

/-- Extract a single-line field `/<name>(.*?)<\/name>/i` and trim it. -/
def lineField (name : List Char) (content : List Char) : Option String :=
  (extractField ('<' :: (name ++ ['>'])) ('<' :: '/' :: (name ++ ['>'])) false content).map
    fun l => String.mk (trimWs l)

/-- Extract a multi-line field `/<name>([\s\S]*?)<\/name>/i` and trim it. -/
def blockField (name : List Char) (content : List Char) : Option String :=
  (extractField ('<' :: (name ++ ['>'])) ('<' :: '/' :: (name ++ ['>'])) true content).map
    fun l => String.mk (trimWs l)

/-- Decimal value of a digit list (JS `parseInt(digits, 10)`). -/
def digitsToNat (ds : List Char) : Nat :=
  ds.foldl (fun acc c => acc * 10 + (c.toNat - 48)) 0

/-- Find the leftmost match of `/<limit>(\d+)<\/limit>/i`: one or more
digits directly between the tags. -/
def extractLimit : List Char → Option Nat
  | [] => none
  | c :: cs =>
    if ciStarts "<limit>".data (c :: cs) then
      let after := (c :: cs).drop 7
      let ds := after.takeWhile Char.isDigit
      if !ds.isEmpty && ciStarts "</limit>".data (after.drop ds.length) then
        some (digitsToNat ds)
      else extractLimit cs
    else extractLimit cs

/-- Parse a priority token: trimmed, lowercased, and silently dropped
unless it is one of the three enum values
(`Object.values(Priority).includes(...)` in `parseCommandParams`). -/
def parsePriorityToken (s : String) : Option Priority :=
  let t := String.mk (s.data.map Char.toLower)
  if t = "low" then some .low
  else if t = "medium" then some .medium
  else if t = "high" then some .high
  else none

/-- `XmlParser.parseCommandParams`: extract the known fields from the
text between a command's opening and closing tags. -/
def parseCommandParams (content : List Char) : CommandParams :=
  { lineNumber := lineField "linenumber".data content
    category := lineField "category".data content
    priority := (lineField "priority".data content).bind parsePriorityToken
    context := blockField "context".data content
    id := lineField "id".data content
    key := lineField "key".data content
    value := blockField "value".data content
    query := blockField "query".data content
    limit := extractLimit content }

/-- `XmlParser.parse`: repeatedly find the next command block and
collect the parsed commands, in text order. -/
def parse (s : List Char) : List Command :=
  match h : scanCommand s with
  | none => []
  | some (_, t, content, rest) => ⟨t, parseCommandParams content⟩ :: parse rest
termination_by s.length
decreasing_by
  have := scanCommand_length h
  omega

/-- `XmlParser.removeCommands`: `text.replace(/<(tag…)>[\s\S]*?<\/\1>/g, '')`.
Each match is removed and scanning resumes after the removed block. -/
def removeCommands (s : List Char) : List Char :=
  match h : scanCommand s with
  | none => s
  | some (pre, _, _, rest) => pre ++ removeCommands rest
termination_by s.length
decreasing_by
  have := scanCommand_length h
  omega

/-- `XmlParser.validateCommand`. -/
def validateCommand (c : Command) : Bool :=
  match c.type with
  | .addSummary => optTruthyS c.params.context
  | .editSummary =>
      optTruthyS c.params.id &&
        (optTruthyS c.params.context || optTruthyS c.params.category ||
          optTruthyP c.params.priority)
  | .deleteSummary => optTruthyS c.params.id
  | .querySummary => true
  | .saveUserData => optTruthyS c.params.key && c.params.value.isSome
  | .retrieveUserData => optTruthyS c.params.key || optTruthyS c.params.query

/-! ## Data model and system state -/

/-- A summary entry (`SummaryEntry` in `types.ts`).  Timestamps are
logical-clock values; `id` is a generated uuid string. -/
structure SummaryEntry where
  id : String
  chatId : String
  context : String
  category : Option String
  priority : Option Priority
  lineNumber : Option String
  createdAt : Nat
  modifiedAt : Nat
  version : Nat
deriving DecidableEq

/-- Metadata attached to a stored vector (`Record<string, any>` in
`vector.ts`; the fields are the ones the engine ever writes or reads).
`none` models an absent / `undefined` property. -/
structure VectorMeta where
  summaryId : Option String
  chatId : Option String
  category : Option String
  priority : Option Priority
  createdAt : Option Nat
  modifiedAt : Option Nat
  embedding : Option (List ℚ)
deriving DecidableEq

/-- Metadata with no properties (the `{}` default of `addVector`). -/
def VectorMeta.empty : VectorMeta := ⟨none, none, none, none, none, none, none⟩

/-- A stored vector entry (`TextVector` in `vector.ts`).  Components of
the letter-frequency embedding are exact rationals. -/
structure TextVector where
  id : String
  text : String
  vector : List ℚ
  metadata : VectorMeta
deriving DecidableEq

/-- The mutable state of the engine singletons: the storage adapter's
entry map (as an insertion-ordered list with unique ids), the main
vector database, the RAGs manager's private vector database, the uuid
counter and the logical clock. -/
structure SysState where
  entries : List SummaryEntry
  vectors : List TextVector
  ragsVectors : List TextVector
  nextUuid : Nat
  clock : Nat
deriving DecidableEq

/-- The state of a fresh process: empty stores, counter and clock at 0. -/
def SysState.init : SysState := ⟨[], [], [], 0, 0⟩

/-- `uuidv4()` modelled as an injective fresh-string generator. -/
def uuid (n : Nat) : String := String.mk (List.replicate (n + 1) 'u')

theorem uuid_injective : Function.Injective uuid := by
  intro a b h
  have : List.replicate (a + 1) 'u' = List.replicate (b + 1) 'u' := by
    injection h
  have := congrArg List.length this
  simpa using this

/-! ## Record store (`StorageManager` and `MemoryStorageAdapter` in `storage.ts`) -/

/-- Storage configuration (`StorageOptions`), with the
`StorageManager.DEFAULT_OPTIONS` values as defaults. -/
structure StorageOpts where
  maxEntriesPerChat : Nat
  enableAutoCleanup : Bool
deriving DecidableEq

/-- The default storage options (`maxEntriesPerChat: 1000`,
`enableAutoCleanup: true`). -/
def defaultStorageOpts : StorageOpts := ⟨1000, true⟩

/-- `MemoryStorageAdapter.save`: `Map.set` keyed by `entry.id` —
replace in place when the key exists, append otherwise. -/
def saveEntry (e : SummaryEntry) (l : List SummaryEntry) : List SummaryEntry :=
  if l.any (fun x => x.id == e.id) then
    l.map (fun x => if x.id == e.id then e else x)
  else l ++ [e]

/-- `MemoryStorageAdapter.getById` (`Map.get`, `null` when absent). -/
def getById (idStr : String) (st : SysState) : Option SummaryEntry :=
  st.entries.find? (fun e => e.id == idStr)

/-- `MemoryStorageAdapter.getByChatId`. -/
def getByChatId (chatId : String) (st : SysState) : List SummaryEntry :=
  st.entries.filter (fun e => e.chatId == chatId)

/-- Stable insertion sort ordered by a `keep` test: `keep a b = true`
means `a` may stay in front of `b` (JS comparator result `<= 0`).
`Array.prototype.sort` with a consistent comparator is a stable sort,
which this reproduces. -/
def insertBy (keep : α → α → Bool) (x : α) : List α → List α
  | [] => [x]
  | y :: ys => if keep x y then x :: y :: ys else y :: insertBy keep x ys

/-- See `insertBy`. -/
def sortKeep (keep : α → α → Bool) : List α → List α
  | [] => []
  | x :: xs => insertBy keep x (sortKeep keep xs)

/-- Sort fields accepted by `QueryOptions.sortBy`. -/
inductive SortField where
  | createdAt
  | modifiedAt
  | priority
deriving DecidableEq

/-- `QueryOptions.sortDirection`. -/
inductive SortDirection where
  | asc
  | desc
deriving DecidableEq

/-- Query options (`QueryOptions` in `types.ts`). -/
structure QueryOpts where
  category : Option String
  priority : Option Priority
  createdBetween : Option (Nat × Nat)
  limit : Option Nat
  sortBy : Option SortField
  sortDirection : Option SortDirection
deriving DecidableEq

/-- A `QueryOpts` with no criteria set (`{}`). -/
def QueryOpts.empty : QueryOpts := ⟨none, none, none, none, none, none⟩

/-- JS `aValue > bValue` for the sort field: numbers compare
numerically; `priority` holds the enum strings, which JS compares
lexicographically; any comparison against `undefined` is false. -/
def fieldGt : SortField → SummaryEntry → SummaryEntry → Bool
  | .createdAt, a, b => b.createdAt < a.createdAt
  | .modifiedAt, a, b => b.modifiedAt < a.modifiedAt
  | .priority, a, b =>
    match a.priority, b.priority with
    | some pa, some pb => pb.str < pa.str
    | _, _ => false

/-- JS `aValue < bValue` for the sort field (see `fieldGt`). -/
def fieldLt (f : SortField) (a b : SummaryEntry) : Bool := fieldGt f b a

/-- The comparator of `MemoryStorageAdapter.query` as a `keep` test:
ascending keeps `a` before `b` unless `aValue > bValue`; descending
keeps `a` before `b` unless `aValue < bValue`. -/
def queryKeep (f : SortField) (dir : SortDirection) (a b : SummaryEntry) : Bool :=
  match dir with
  | .asc => !fieldGt f a b
  | .desc => !fieldLt f a b

/-- `MemoryStorageAdapter.query`: filter by chat, category, priority and
creation-date range, then sort (direction defaults to `'desc'`), then
apply a positive limit.  The `category` guard is a truthiness test, so a
`some ""` criterion is ignored like `undefined`. -/
def queryEntries (chatId : String) (q : QueryOpts) (st : SysState) : List SummaryEntry :=
  let r0 := st.entries.filter (fun e => e.chatId == chatId)
  let r1 := if optTruthyS q.category then r0.filter (fun e => e.category == q.category) else r0
  let r2 := if optTruthyP q.priority then r1.filter (fun e => e.priority == q.priority) else r1
  let r3 := match q.createdBetween with
    | some (s, e) => r2.filter (fun x => s ≤ x.createdAt && x.createdAt ≤ e)
    | none => r2
  let r4 := match q.sortBy with
    | some f => sortKeep (queryKeep f (q.sortDirection.getD .desc)) r3
    | none => r3
  match q.limit with
  | some l => if 0 < l then r4.take l else r4
  | none => r4

/-- `StorageManager.cleanupOldEntries`: when the chat holds more than
`maxEntriesPerChat` entries, sort them by `modifiedAt` ascending and
delete the oldest until the chat is back at the limit. -/
def cleanupOldEntries (opts : StorageOpts) (chatId : String) (st : SysState) : SysState :=
  let es := st.entries.filter (fun e => e.chatId == chatId)
  if es.length ≤ opts.maxEntriesPerChat then st
  else
    let sorted := sortKeep (fun a b => a.modifiedAt ≤ b.modifiedAt) es
    let toDelete := sorted.take (es.length - opts.maxEntriesPerChat)
    { st with entries := st.entries.filter (fun e => !toDelete.any (fun d => d.id == e.id)) }

/-- `StorageManager.createSummary`: build the entry with a fresh uuid,
`version` 1 and both timestamps set to `now`, save it, then run the
capacity cleanup (when enabled) before the caller observes the state. -/
def createSummary (opts : StorageOpts) (chatId context : String) (category : Option String)
    (priority : Option Priority) (lineNumber : Option String) (st : SysState) :
    SummaryEntry × SysState :=
  let now := st.clock
  let e : SummaryEntry :=
    ⟨uuid st.nextUuid, chatId, context, category, priority, lineNumber, now, now, 1⟩
  let st1 : SysState :=
    { st with entries := saveEntry e st.entries, nextUuid := st.nextUuid + 1,
              clock := st.clock + 1 }
  (e, if opts.enableAutoCleanup then cleanupOldEntries opts chatId st1 else st1)

/-- The updatable fields of `StorageManager.updateSummary`
(`Partial<Pick<SummaryEntry, 'context' | 'category' | 'priority'>>`);
`none` models an absent key. -/
structure UpdateFields where
  context : Option String
  category : Option String
  priority : Option Priority
deriving DecidableEq

/-- `StorageManager.updateSummary`: `null` when the id is unknown;
otherwise merge the provided fields, set `modifiedAt` to `now`, bump
`version`, and save. -/
def updateSummary (idStr : String) (u : UpdateFields) (st : SysState) :
    Option SummaryEntry × SysState :=
  match getById idStr st with
  | none => (none, st)
  | some e =>
    let e' : SummaryEntry :=
      { e with
        context := u.context.getD e.context
        category := match u.category with | some c => some c | none => e.category
        priority := match u.priority with | some p => some p | none => e.priority
        modifiedAt := st.clock
        version := e.version + 1 }
    (some e', { st with entries := saveEntry e' st.entries, clock := st.clock + 1 })

/-- `StorageManager.deleteSummary` via `Map.delete`. -/
def deleteSummary (idStr : String) (st : SysState) : Bool × SysState :=
  (st.entries.any (fun e => e.id == idStr),
    { st with entries := st.entries.filter (fun e => !(e.id == idStr)) })

/-! ## Similarity index (`vector.ts`) -/

/-- Letter index of a character after `toLowerCase`:
`charCodeAt(i) - 97` when it lands in `[0, 26)`. -/
def letterIndex (c : Char) : Option Nat :=
  let n := c.toLower.toNat
  if 97 ≤ n ∧ n < 123 then some (n - 97) else none

/-- Increment position `i` of a count vector (`vector[charCode]++`). -/
def bumpAt (v : List Nat) (i : Nat) : List Nat := v.set i (v.getD i 0 + 1)

/-- `textToVector`: the 26-dimensional lowercase-letter frequency
embedding.  Counts are accumulated over the text, then divided by their
sum when it is positive. -/
def textToVector (text : String) : List ℚ :=
  let counts := text.data.foldl
    (fun v c => match letterIndex c with | some i => bumpAt v i | none => v)
    (List.replicate 26 0)
  let sum := counts.sum
  if 0 < sum then counts.map (fun c => (Nat.cast c : ℚ) / Nat.cast sum)
  else counts.map (fun c => (Nat.cast c : ℚ))

/-- Sum of pairwise products, the `dotProduct` accumulator of
`cosineSimilarity` (exact rational arithmetic). -/
def dotProd (a b : List ℚ) : ℚ := (List.zipWith (· * ·) a b).sum

/-- The `normA` / `normB` accumulators of `cosineSimilarity`: the sum of
squares, before the square root is taken. -/
def normSq (a : List ℚ) : ℚ := dotProd a a

/-- The value `cosineSimilarity` computes once the lengths are known to
agree: 0 when either accumulated norm is 0, otherwise
`dotProduct / (Math.sqrt(normA) * Math.sqrt(normB))`. -/
noncomputable def cosSim (a b : List ℚ) : ℝ :=
  if normSq a = 0 ∨ normSq b = 0 then 0
  else (dotProd a b : ℝ) / (Real.sqrt (normSq a) * Real.sqrt (normSq b))

/-- `cosineSimilarity` in `vector.ts`: throws (`none`) on a length
mismatch, otherwise returns the score. -/
noncomputable def cosineSimilarity (a b : List ℚ) : Option ℝ :=
  if a.length = b.length then some (cosSim a b) else none

/-- A search hit (`VectorSearchResult`). -/
structure SearchResult where
  vector : TextVector
  score : ℝ

/-- `VectorDatabase.search`: embed the query, score every stored vector,
keep scores `>= threshold`, sort by score descending, return at most
`limit` results.  Every vector the engine ever stores is a
26-dimensional `textToVector` output, matching the query vector's
length, so the length-mismatch throw of `cosineSimilarity` cannot fire
and the score is `cosSim`. -/
noncomputable def search (db : List TextVector) (text : String) (limit : Nat)
    (threshold : ℝ) : List SearchResult :=
  let qv := textToVector text
  let results := db.map (fun v => SearchResult.mk v (cosSim qv v.vector))
  (sortKeep (fun a b => decide (b.score ≤ a.score))
      (results.filter (fun r => decide (threshold ≤ r.score)))).take limit

/-- `VectorDatabase.searchWithFilter`: restrict the candidates to
vectors whose metadata passes the filter, then proceed as `search`. -/
noncomputable def searchWithFilter (db : List TextVector) (text : String)
    (metadataFilter : VectorMeta → Bool) (limit : Nat) (threshold : ℝ) : List SearchResult :=
  let qv := textToVector text
  let results := (db.filter (fun v => metadataFilter v.metadata)).map
    (fun v => SearchResult.mk v (cosSim qv v.vector))
  (sortKeep (fun a b => decide (b.score ≤ a.score))
      (results.filter (fun r => decide (threshold ≤ r.score)))).take limit

/-- `VectorDatabase.addVector` on the main database: a fresh id, the
original text, the `textToVector` embedding of the text (the embedding
algorithm is hardwired here), and the caller's metadata. -/
def addVectorMain (text : String) (md : VectorMeta) (st : SysState) : TextVector × SysState :=
  let v : TextVector := ⟨uuid st.nextUuid, text, textToVector text, md⟩
  (v, { st with vectors := st.vectors ++ [v], nextUuid := st.nextUuid + 1 })

/-- `VectorDatabase.addVector` on the RAGs manager's private database
(`rags = new RagsManager(new VectorDatabase())`). -/
def addVectorRags (text : String) (md : VectorMeta) (st : SysState) : TextVector × SysState :=
  let v : TextVector := ⟨uuid st.nextUuid, text, textToVector text, md⟩
  (v, { st with ragsVectors := st.ragsVectors ++ [v], nextUuid := st.nextUuid + 1 })

/-- `VectorDatabase.addSummaryEntry`. -/
def addSummaryEntry (e : SummaryEntry) (st : SysState) : TextVector × SysState :=
  addVectorMain e.context
    ⟨some e.id, some e.chatId, e.category, e.priority, some e.createdAt, some e.modifiedAt, none⟩
    st

/-! ## RAGs layer (`rags.ts`) -/

/-- An embedding provider (`EmbeddingProvider.generateEmbedding`),
modelled as a pure text-to-vector function. -/
def EmbeddingProvider : Type := String → List ℚ

/-- The `DefaultEmbeddingProvider`: its `generateEmbedding` body is the
letter-frequency algorithm of `textToVector`. -/
def defaultEmbeddingProvider : EmbeddingProvider := textToVector

/-- `RagsManager.addEntry`: generate the embedding with the configured
provider, then call `addVector`, passing the provider's embedding only
inside the metadata — `addVector` stores `textToVector(text)` as the
scored vector. -/
def ragsAddEntry (provider : EmbeddingProvider) (e : SummaryEntry) (st : SysState) :
    TextVector × SysState :=
  let embedding := provider e.context
  addVectorRags e.context
    ⟨some e.id, some e.chatId, e.category, e.priority, some e.createdAt, some e.modifiedAt,
      some embedding⟩
    st

/-- `RagsRetrievalOptions`. -/
structure RagsRetrievalOpts where
  limit : Option Nat
  threshold : Option ℝ
  chatId : Option String
  category : Option String
  priority : Option Priority
  filter : Option (SummaryEntry → Bool)

/-- A RAGs hit (`RagsRetrievalResult`). -/
structure RagsResult where
  entry : SummaryEntry
  score : ℝ

/-- `RagsManager.retrieve`: generate a query embedding with the
configured provider (the source never uses it), build the metadata
filter from the chat/category/priority criteria, run
`searchWithFilter` on the RAGs vector database, map each hit back to
its summary entry through `metadata.summaryId`, and drop hits whose
entry is gone or fails the custom filter. -/
noncomputable def ragsRetrieve (provider : EmbeddingProvider) (query : String)
    (opts : RagsRetrievalOpts) (st : SysState) : List RagsResult :=
  let _queryEmbedding := provider query
  let limit := opts.limit.getD 5
  let threshold := opts.threshold.getD 0.5
  let metadataFilter : VectorMeta → Bool := fun md =>
    !(optTruthyS opts.chatId && !(md.chatId == opts.chatId)) &&
    !(optTruthyS opts.category && !(md.category == opts.category)) &&
    !(optTruthyP opts.priority && !(md.priority == opts.priority))
  let searchResults := searchWithFilter st.ragsVectors query metadataFilter limit threshold
  searchResults.foldl
    (fun acc r =>
      match r.vector.metadata.summaryId.bind (fun sid => getById sid st) with
      | some entry =>
        match opts.filter with
        | some f => if f entry then acc ++ [⟨entry, r.score⟩] else acc
        | none => acc ++ [⟨entry, r.score⟩]
      | none => acc)
    []

/-! ## Dispatcher (`ContinuityAPI` in `api.ts`) -/

/-- The API options the dispatcher reads (`ContinuityOptions.rags` and
`defaultChatId`; the storage singleton always runs with its default
options, since the constructor never forwards `options.storage` to it). -/
structure ApiOpts where
  ragsEnabled : Bool
  maxResults : Nat
  similarityThreshold : ℝ
  defaultChatId : String

/-- `ContinuityAPI.DEFAULT_OPTIONS`. -/
noncomputable def defaultApiOpts : ApiOpts := ⟨false, 5, 0.5, "default"⟩

/-- JS `s.replace(pat, '')` for a plain-string pattern: remove the first
occurrence of `pat`. -/
def removeFirstSub (pat : List Char) : List Char → List Char
  | [] => []
  | c :: cs =>
    if pat.isPrefixOf (c :: cs) then (c :: cs).drop pat.length
    else c :: removeFirstSub pat cs

/-- `category.replace('user_data.', '')` on a string. -/
def stripUserData (s : String) : String := String.mk (removeFirstSub "user_data.".data s.data)

/-- One user-data hit of a query-mode `retrieve_user_data` result
(`{ key, value, score, entry }`; `key` is `undefined` when the entry has
no category, via the `?.` chain). -/
structure UserDataHit where
  key : Option String
  value : String
  score : ℝ
  entry : SummaryEntry

/-- The value a single executed command produces (or the error result
its thrown exception is converted to). -/
inductive CmdResult where
  | entry (e : SummaryEntry)
  | updated (e : Option SummaryEntry)
  | deleted (b : Bool)
  | queried (es : List SummaryEntry)
  | userKey (key : String) (value : Option String) (entry : Option SummaryEntry)
  | userQuery (query : String) (hits : List UserDataHit)
  | error (msg : String)

/-- `ContinuityAPI.handleAddSummary`. -/
def handleAddSummary (c : Command) (chatId : String) (st : SysState) : CmdResult × SysState :=
  if !optTruthyS c.params.context then (.error "Context is required for add_summary command", st)
  else
    let ctx := c.params.context.getD ""
    let (e, st1) := createSummary defaultStorageOpts chatId ctx c.params.category
      c.params.priority c.params.lineNumber st
    let (_, st2) := addSummaryEntry e st1
    (.entry e, st2)

/-- `ContinuityAPI.handleEditSummary`. -/
def handleEditSummary (c : Command) (st : SysState) : CmdResult × SysState :=
  match c.params.id with
  | none => (.error "ID is required for edit_summary command", st)
  | some idStr =>
    let (r, st') := updateSummary idStr
      ⟨c.params.context, c.params.category, c.params.priority⟩ st
    (.updated r, st')

/-- `ContinuityAPI.handleDeleteSummary`. -/
def handleDeleteSummary (c : Command) (st : SysState) : CmdResult × SysState :=
  match c.params.id with
  | none => (.error "ID is required for delete_summary command", st)
  | some idStr =>
    let (b, st') := deleteSummary idStr st
    (.deleted b, st')

/-- `ContinuityAPI.handleQuerySummary`: category and priority criteria
are copied into the query options only when truthy. -/
def handleQuerySummary (c : Command) (chatId : String) (st : SysState) : CmdResult × SysState :=
  let q : QueryOpts :=
    { QueryOpts.empty with
      category := if optTruthyS c.params.category then c.params.category else none
      priority := if optTruthyP c.params.priority then c.params.priority else none }
  (.queried (queryEntries chatId q st), st)

/-- `ContinuityAPI.handleSaveUserData`: the value is stored as a summary
entry with category `user_data.<key>` and priority `'medium'`; the entry
is indexed in the RAGs index when RAGs is enabled, in the main vector
database otherwise. -/
noncomputable def handleSaveUserData (api : ApiOpts) (provider : EmbeddingProvider)
    (c : Command) (chatId : String) (st : SysState) : CmdResult × SysState :=
  match c.params.key with
  | none => (.error "Key is required for save_user_data command", st)
  | some key =>
    match c.params.value with
    | none => (.error "Value is required for save_user_data command", st)
    | some value =>
      let (e, st1) := createSummary defaultStorageOpts chatId value
        (some ("user_data." ++ key)) (some .medium) none st
      let st2 := if api.ragsEnabled then (ragsAddEntry provider e st1).2
                 else (addSummaryEntry e st1).2
      (.entry e, st2)

/-- `ContinuityAPI.handleRetrieveUserData`: direct key lookup when a key
is given (query the chat for category `user_data.<key>`, answer with the
most recently created entry, or `value: null` when none exists);
otherwise a semantic query through the RAGs manager or, when RAGs is
disabled, the main vector database. -/
noncomputable def handleRetrieveUserData (api : ApiOpts) (provider : EmbeddingProvider)
    (c : Command) (chatId : String) (st : SysState) : CmdResult × SysState :=
  if optTruthyS c.params.key then
    let key := c.params.key.getD ""
    let entries := queryEntries chatId
      { QueryOpts.empty with category := some ("user_data." ++ key) } st
    match sortKeep (fun a b => b.createdAt ≤ a.createdAt) entries with
    | e :: _ => (.userKey key (some e.context) (some e), st)
    | [] => (.userKey key none none, st)
  else if optTruthyS c.params.query then
    let q := c.params.query.getD ""
    let fallback := if api.maxResults ≠ 0 then api.maxResults else 5
    let effLimit := match c.params.limit with
      | some l => if l ≠ 0 then l else fallback
      | none => fallback
    if api.ragsEnabled then
      let results := ragsRetrieve provider q
        ⟨some effLimit, some api.similarityThreshold, some chatId, none, none,
          some (fun e => optTruthyS e.category && (e.category.getD "").startsWith "user_data.")⟩
        st
      (.userQuery q (results.map fun r =>
        ⟨r.entry.category.map stripUserData, r.entry.context, r.score, r.entry⟩), st)
    else
      let results := searchWithFilter st.vectors q
        (fun md => md.chatId == some chatId && optTruthyS md.category &&
          (md.category.getD "").startsWith "user_data.")
        effLimit api.similarityThreshold
      let userData := results.foldl
        (fun acc r =>
          match r.vector.metadata.summaryId.bind (fun sid => getById sid st) with
          | some entry =>
            acc ++ [UserDataHit.mk (entry.category.map stripUserData) entry.context r.score entry]
          | none => acc)
        []
      (.userQuery q userData, st)
  else (.error "Either key or query is required for retrieve_user_data command", st)

/-- `ContinuityAPI.executeCommand`: dispatch on the command type.  The
`throw` statements of the handlers surface as `CmdResult.error`, which
is what the `catch` in `processResponse` turns them into. -/
noncomputable def executeCommand (api : ApiOpts) (provider : EmbeddingProvider)
    (c : Command) (chatId : String) (st : SysState) : CmdResult × SysState :=
  match c.type with
  | .addSummary => handleAddSummary c chatId st
  | .editSummary => handleEditSummary c st
  | .deleteSummary => handleDeleteSummary c st
  | .querySummary => handleQuerySummary c chatId st
  | .saveUserData => handleSaveUserData api provider c chatId st
  | .retrieveUserData => handleRetrieveUserData api provider c chatId st

/-- The value `processResponse` resolves to:
`{ text, commands, results }`. -/
structure ProcessOutput where
  text : List Char
  commands : List Command
  results : List CmdResult

/-- `ContinuityAPI.processResponse`: parse the text, then for each
command in order: when validation fails, emit an error event and
`continue` — the source pushes nothing onto `results` on this path;
when validation succeeds, execute the command and push its result (or
the caught error).  Finally strip the command blocks from the text. -/
noncomputable def processResponse (api : ApiOpts) (provider : EmbeddingProvider)
    (text : List Char) (chatId : Option String) (st : SysState) :
    ProcessOutput × SysState :=
  let effectiveChatId := match chatId with
    | some c => if c.isEmpty then api.defaultChatId else c
    | none => api.defaultChatId
  let commands := parse text
  let step := commands.foldl
    (fun (acc : List CmdResult × SysState) c =>
      if !validateCommand c then acc
      else
        let (r, st') := executeCommand api provider c effectiveChatId acc.2
        (acc.1 ++ [r], st'))
    ([], st)
  (⟨removeCommands text, commands, step.1⟩, step.2)

/-! ## Generic lemmas about the stable comparator sort -/

theorem mem_insertBy {keep : α → α → Bool} {x a : α} :
    ∀ {l : List α}, a ∈ insertBy keep x l ↔ a = x ∨ a ∈ l := by
  intro l
  induction l with
  | nil => simp [insertBy]
  | cons y ys ih =>
    by_cases h : keep x y
    · simp [insertBy, h]
    · simp only [insertBy, if_neg h, List.mem_cons, ih]
      tauto

theorem mem_sortKeep {keep : α → α → Bool} {a : α} :
    ∀ {l : List α}, a ∈ sortKeep keep l ↔ a ∈ l := by
  intro l
  induction l with
  | nil => simp [sortKeep]
  | cons y ys ih => simp [sortKeep, mem_insertBy, ih]

theorem pairwise_insertBy {keep : α → α → Bool}
    (total : ∀ a b, keep a b = true ∨ keep b a = true)
    (trans : ∀ a b c, keep a b = true → keep b c = true → keep a c = true)
    {x : α} :
    ∀ {l : List α}, l.Pairwise (fun a b => keep a b = true) →
      (insertBy keep x l).Pairwise (fun a b => keep a b = true) := by
  intro l
  induction l with
  | nil => intro _; simp [insertBy]
  | cons y ys ih =>
    intro hp
    rcases List.pairwise_cons.mp hp with ⟨hy, hys⟩
    by_cases h : keep x y
    · rw [insertBy, if_pos h]
      refine List.pairwise_cons.mpr ⟨?_, hp⟩
      intro b hb
      rcases List.mem_cons.mp hb with rfl | hb
      · exact h
      · exact trans x y b h (hy b hb)
    · rw [insertBy, if_neg h]
      refine List.pairwise_cons.mpr ⟨?_, ih hys⟩
      intro b hb
      rcases mem_insertBy.mp hb with heq | hb
      · rw [heq]
        rcases total x y with hxy | hyx
        · exact absurd hxy h
        · exact hyx
      · exact hy b hb

theorem pairwise_sortKeep {keep : α → α → Bool}
    (total : ∀ a b, keep a b = true ∨ keep b a = true)
    (trans : ∀ a b c, keep a b = true → keep b c = true → keep a c = true) :
    ∀ (l : List α), (sortKeep keep l).Pairwise (fun a b => keep a b = true) := by
  intro l
  induction l with
  | nil => simp [sortKeep]
  | cons y ys ih => exact pairwise_insertBy total trans ih

/-- Inserting an element that may stay in front of the head simply
prepends it. -/
theorem insertBy_head {keep : α → α → Bool} {x y : α} {ys : List α}
    (h : keep x y = true) : insertBy keep x (y :: ys) = x :: y :: ys := by
  rw [insertBy, if_pos h]

/-- A list already ordered by `keep` is a fixed point of the sort. -/
theorem sortKeep_of_pairwise {keep : α → α → Bool} :
    ∀ {l : List α}, l.Pairwise (fun a b => keep a b = true) → sortKeep keep l = l := by
  intro l
  induction l with
  | nil => intro _; rfl
  | cons y ys ih =>
    intro hp
    rcases List.pairwise_cons.mp hp with ⟨hy, hys⟩
    rw [sortKeep, ih hys]
    cases ys with
    | nil => rfl
    | cons z zs => exact insertBy_head (hy z (by simp))

/-- The head of a sorted nonempty list dominates every member. -/
theorem sortKeep_head_dominates {keep : α → α → Bool}
    (total : ∀ a b, keep a b = true ∨ keep b a = true)
    (trans : ∀ a b c, keep a b = true → keep b c = true → keep a c = true)
    {l : List α} {e : α} {rest : List α} (h : sortKeep keep l = e :: rest) :
    e ∈ l ∧ ∀ b ∈ l, keep e b = true := by
  have hmem : e ∈ l := mem_sortKeep.mp (h ▸ List.mem_cons_self e rest)
  refine ⟨hmem, fun b hb => ?_⟩
  have hb' : b ∈ sortKeep keep l := mem_sortKeep.mpr hb
  rw [h] at hb'
  rcases List.mem_cons.mp hb' with rfl | hb'
  · rcases total b b with hbb | hbb <;> exact hbb
  · have hp := pairwise_sortKeep total trans l
    rw [h] at hp
    exact (List.pairwise_cons.mp hp).1 b hb'

/-! ## Cosine similarity lemmas -/

theorem dotProd_self_eq_normSq (v : List ℚ) : dotProd v v = normSq v := rfl

theorem normSq_nonneg (v : List ℚ) : 0 ≤ normSq v := by
  unfold normSq dotProd
  rw [List.zipWith_same]
  exact List.sum_nonneg (by
    intro x hx
    obtain ⟨a, _, rfl⟩ := List.mem_map.mp hx
    exact mul_self_nonneg a)

/-- Self-similarity of a vector with nonzero accumulated norm is 1. -/
theorem cosSim_self {v : List ℚ} (h : normSq v ≠ 0) : cosSim v v = 1 := by
  have hpos : 0 < (normSq v : ℝ) := by
    have := lt_of_le_of_ne (normSq_nonneg v) (Ne.symm h)
    exact_mod_cast this
  unfold cosSim
  rw [if_neg (by push_neg; exact ⟨h, h⟩)]
  rw [dotProd_self_eq_normSq, Real.mul_self_sqrt (le_of_lt hpos)]
  exact div_self (ne_of_gt hpos)

/-- When either accumulated norm is 0 the score is 0. -/
theorem cosSim_zero {a b : List ℚ} (h : normSq a = 0 ∨ normSq b = 0) : cosSim a b = 0 := by
  unfold cosSim
  rw [if_pos h]

/-! ## Search pipeline lemmas -/

/-- The comparator of `search` as a keep test is total. -/
theorem scoreKeep_total (a b : SearchResult) :
    decide (b.score ≤ a.score) = true ∨ decide (a.score ≤ b.score) = true := by
  rcases le_total b.score a.score with h | h
  · exact Or.inl (decide_eq_true h)
  · exact Or.inr (decide_eq_true h)

/-- The comparator of `search` as a keep test is transitive. -/
theorem scoreKeep_trans (a b c : SearchResult)
    (h1 : decide (b.score ≤ a.score) = true) (h2 : decide (c.score ≤ b.score) = true) :
    decide (c.score ≤ a.score) = true :=
  decide_eq_true (le_trans (of_decide_eq_true h2) (of_decide_eq_true h1))

/-- The filter / sort / take pipeline shared by `search` and
`searchWithFilter`: every output passed the threshold and came from the
scored candidates, the output is sorted by descending score, and its
length is bounded by the limit. -/
theorem searchPipeline_spec (l : List SearchResult) (limit : Nat) (threshold : ℝ) :
    (∀ r ∈ ((sortKeep (fun a b => decide (b.score ≤ a.score))
        (l.filter (fun r => decide (threshold ≤ r.score)))).take limit),
      threshold ≤ r.score ∧ r ∈ l) ∧
    ((sortKeep (fun a b => decide (b.score ≤ a.score))
        (l.filter (fun r => decide (threshold ≤ r.score)))).take limit).Pairwise
      (fun a b => b.score ≤ a.score) ∧
    ((sortKeep (fun a b => decide (b.score ≤ a.score))
        (l.filter (fun r => decide (threshold ≤ r.score)))).take limit).length ≤ limit := by
  refine ⟨?_, ?_, ?_⟩
  · intro r hr
    have h1 : r ∈ sortKeep (fun a b => decide (b.score ≤ a.score))
        (l.filter (fun r => decide (threshold ≤ r.score))) := List.take_subset _ _ hr
    have h2 := mem_sortKeep.mp h1
    have h3 := List.mem_filter.mp h2
    exact ⟨of_decide_eq_true h3.2, h3.1⟩
  · have hp := @pairwise_sortKeep SearchResult
      (fun a b : SearchResult => decide (b.score ≤ a.score))
      scoreKeep_total scoreKeep_trans (l.filter (fun r => decide (threshold ≤ r.score)))
    exact (hp.take).imp of_decide_eq_true
  · exact List.length_take_le limit _

/-- C6: `search` and `searchWithFilter` return only entries whose
cosine-similarity score is at least the threshold, sorted by descending
score, with at most `limit` results; `searchWithFilter` moreover
returns only entries whose metadata satisfies the predicate. -/
theorem c6_search_threshold_sorted_limit (db : List TextVector) (text : String)
    (limit : Nat) (threshold : ℝ) :
    (∀ r ∈ search db text limit threshold, threshold ≤ r.score) ∧
    (search db text limit threshold).Pairwise (fun a b => b.score ≤ a.score) ∧
    (search db text limit threshold).length ≤ limit ∧
    ∀ p : VectorMeta → Bool,
      (∀ r ∈ searchWithFilter db text p limit threshold,
        threshold ≤ r.score ∧ p r.vector.metadata = true) ∧
      (searchWithFilter db text p limit threshold).Pairwise (fun a b => b.score ≤ a.score) ∧
      (searchWithFilter db text p limit threshold).length ≤ limit := by
  obtain ⟨h1, h2, h3⟩ := searchPipeline_spec
    ((db.map (fun v => SearchResult.mk v (cosSim (textToVector text) v.vector))))
    limit threshold
  refine ⟨fun r hr => (h1 r hr).1, h2, h3, ?_⟩
  intro p
  obtain ⟨g1, g2, g3⟩ := searchPipeline_spec
    (((db.filter (fun v => p v.metadata)).map
      (fun v => SearchResult.mk v (cosSim (textToVector text) v.vector))))
    limit threshold
  refine ⟨fun r hr => ⟨(g1 r hr).1, ?_⟩, g2, g3⟩
  have hmem := (g1 r hr).2
  obtain ⟨v, hv, rfl⟩ := List.mem_map.mp hmem
  exact (List.mem_filter.mp hv).2

/-- The letter counts of the text `"a"`: one `'a'`, nothing else. -/
theorem countsA :
    ("a".data.foldl (fun v c => match letterIndex c with | some i => bumpAt v i | none => v)
      (List.replicate 26 0)) = 1 :: List.replicate 25 0 := by decide

theorem textToVector_a : textToVector "a" = (1 : ℚ) :: List.replicate 25 0 := by
  unfold textToVector
  rw [countsA]
  dsimp only
  have hsum : (1 :: List.replicate 25 (0 : ℕ)).sum = 1 := by decide
  rw [hsum]
  rw [if_pos (by norm_num)]
  rw [List.map_cons, List.map_replicate]
  norm_num

theorem normSq_a : normSq (textToVector "a") = 1 := by
  rw [textToVector_a]
  unfold normSq dotProd
  rw [List.zipWith_same]
  rw [List.map_cons, List.map_replicate]
  simp [List.sum_replicate]

/-- A one-entry vector database used to exercise the search pipeline on
concrete data. -/
def w6vec : TextVector := ⟨"u", "a", textToVector "a", VectorMeta.empty⟩

theorem search_w6 : search [w6vec] "a" 1 (1/2 : ℝ) = [⟨w6vec, 1⟩] := by
  have hn : normSq (textToVector "a") ≠ 0 := by rw [normSq_a]; norm_num
  have hscore := cosSim_self hn
  unfold search w6vec
  dsimp only
  rw [List.map_cons, List.map_nil]
  dsimp only
  rw [hscore]
  rw [List.filter_cons, List.filter_nil]
  dsimp only
  rw [if_pos (by rw [decide_eq_true_eq]; norm_num)]
  rw [show sortKeep (fun a b : SearchResult => decide (b.score ≤ a.score))
    [⟨⟨"u", "a", textToVector "a", VectorMeta.empty⟩, (1 : ℝ)⟩] =
    [⟨⟨"u", "a", textToVector "a", VectorMeta.empty⟩, (1 : ℝ)⟩] from rfl]
  rfl

theorem searchWithFilter_w6 :
    searchWithFilter [w6vec] "a" (fun _ => true) 1 (1/2 : ℝ) = [⟨w6vec, 1⟩] := by
  have hn : normSq (textToVector "a") ≠ 0 := by rw [normSq_a]; norm_num
  have hscore := cosSim_self hn
  unfold searchWithFilter w6vec
  dsimp only
  rw [List.filter_cons, List.filter_nil, if_pos rfl]
  rw [List.map_cons, List.map_nil]
  dsimp only
  rw [hscore]
  rw [List.filter_cons, List.filter_nil]
  dsimp only
  rw [if_pos (by rw [decide_eq_true_eq]; norm_num)]
  rw [show sortKeep (fun a b : SearchResult => decide (b.score ≤ a.score))
    [⟨⟨"u", "a", textToVector "a", VectorMeta.empty⟩, (1 : ℝ)⟩] =
    [⟨⟨"u", "a", textToVector "a", VectorMeta.empty⟩, (1 : ℝ)⟩] from rfl]
  rfl

/-- Witness for C6 on a concrete database, query, limit and threshold. -/
theorem c6_witness :
    ((SearchResult.mk w6vec 1) ∈ search [w6vec] "a" 1 (1/2 : ℝ) ∧
      (1/2 : ℝ) ≤ (SearchResult.mk w6vec 1).score) ∧
    ((SearchResult.mk w6vec 1) ∈ searchWithFilter [w6vec] "a" (fun _ => true) 1 (1/2 : ℝ) ∧
      (1/2 : ℝ) ≤ (SearchResult.mk w6vec 1).score ∧
      (fun _ : VectorMeta => true) (SearchResult.mk w6vec 1).vector.metadata = true) := by
  have h1 : (SearchResult.mk w6vec 1) ∈ search [w6vec] "a" 1 (1/2 : ℝ) := by
    rw [search_w6]; exact List.mem_singleton.mpr rfl
  have h2 : (SearchResult.mk w6vec 1) ∈
      searchWithFilter [w6vec] "a" (fun _ => true) 1 (1/2 : ℝ) := by
    rw [searchWithFilter_w6]; exact List.mem_singleton.mpr rfl
  refine ⟨⟨h1, ?_⟩, ⟨h2, ?_⟩⟩
  · exact (c6_search_threshold_sorted_limit [w6vec] "a" 1 (1/2 : ℝ)).1 _ h1
  · exact ((c6_search_threshold_sorted_limit [w6vec] "a" 1 (1/2 : ℝ)).2.2.2
      (fun _ => true)).1 _ h2

/-! ## C9: cosine self-similarity and zero-norm behaviour -/

/-- C9: `cosineSimilarity(v, v) = 1` for every vector with nonzero norm
accumulator, and the score of any equal-length pair with a zero norm
accumulator is 0. -/
theorem c9_cosine_self_and_zero :
    (∀ v : List ℚ, normSq v ≠ 0 → cosineSimilarity v v = some 1) ∧
    (∀ a b : List ℚ, a.length = b.length → normSq a = 0 ∨ normSq b = 0 →
      cosineSimilarity a b = some 0) := by
  constructor
  · intro v h
    unfold cosineSimilarity
    rw [if_pos rfl, cosSim_self h]
  · intro a b hlen h
    unfold cosineSimilarity
    rw [if_pos hlen, cosSim_zero h]

/-- Witness for C9 at the concrete vectors `[1]` and `[0]`. -/
theorem c9_witness :
    (normSq [(1:ℚ)] ≠ 0 ∧ cosineSimilarity [(1:ℚ)] [(1:ℚ)] = some 1) ∧
    (normSq [(0:ℚ)] = 0 ∧ cosineSimilarity [(0:ℚ)] [(0:ℚ)] = some 0) := by
  have h1 : normSq [(1:ℚ)] ≠ 0 := by norm_num [normSq, dotProd]
  have h0 : normSq [(0:ℚ)] = 0 := by norm_num [normSq, dotProd]
  exact ⟨⟨h1, c9_cosine_self_and_zero.1 [(1:ℚ)] h1⟩,
    ⟨h0, c9_cosine_self_and_zero.2 [(0:ℚ)] [(0:ℚ)] rfl (Or.inl h0)⟩⟩

theorem parse_of_none {s : List Char} (h : scanCommand s = none) : parse s = [] := by
  unfold parse
  rw [h]

theorem parse_of_some {s pre content rest : List Char} {t : CommandType}
    (h : scanCommand s = some (pre, t, content, rest)) :
    parse s = ⟨t, parseCommandParams content⟩ :: parse rest := by
  conv_lhs => rw [parse]
  rw [h]

theorem removeCommands_of_none {s : List Char} (h : scanCommand s = none) :
    removeCommands s = s := by
  unfold removeCommands
  rw [h]

theorem removeCommands_of_some {s pre content rest : List Char} {t : CommandType}
    (h : scanCommand s = some (pre, t, content, rest)) :
    removeCommands s = pre ++ removeCommands rest := by
  conv_lhs => rw [removeCommands]
  rw [h]

theorem length_removeCommands_le :
    ∀ (n : Nat) (s : List Char), s.length ≤ n → (removeCommands s).length ≤ s.length := by
  intro n
  induction n with
  | zero =>
    intro s hs
    have : s = [] := List.eq_nil_of_length_eq_zero (Nat.le_zero.mp hs)
    subst this
    rw [removeCommands_of_none (by decide)]
  | succ n ih =>
    intro s hs
    cases h : scanCommand s with
    | none => rw [removeCommands_of_none h]
    | some q =>
      obtain ⟨pre, t, content, rest⟩ := q
      rw [removeCommands_of_some h]
      have hlt := scanCommand_length h
      have hrest : rest.length ≤ n := by omega
      have := ih rest hrest
      rw [List.length_append]
      omega

/-- A text with no parsed directives is unchanged by stripping. -/
theorem removeCommands_of_parse_nil {s : List Char} (h : parse s = []) :
    removeCommands s = s := by
  cases hs : scanCommand s with
  | none => exact removeCommands_of_none hs
  | some q =>
    obtain ⟨pre, t, content, rest⟩ := q
    rw [parse_of_some hs] at h
    exact absurd h (by simp)

/-- C4 (amended): iterated stripping reaches a directive-free text. -/
theorem c4_strip_reparse (s : List Char) :
    (∃ n : Nat, parse (removeCommands^[n] s) = []) ∧
    (parse s = [] → removeCommands s = s) := by
  constructor
  · have key : ∀ (n : Nat) (s : List Char), s.length ≤ n →
        ∃ k : Nat, parse (removeCommands^[k] s) = [] := by
      intro n
      induction n with
      | zero =>
        intro s hs
        have : s = [] := List.eq_nil_of_length_eq_zero (Nat.le_zero.mp hs)
        subst this
        exact ⟨0, parse_of_none (by decide)⟩
      | succ n ih =>
        intro s hs
        cases h : scanCommand s with
        | none => exact ⟨0, parse_of_none h⟩
        | some q =>
          obtain ⟨pre, t, content, rest⟩ := q
          have hlt := scanCommand_length h
          have hlen : (removeCommands s).length ≤ n := by
            rw [removeCommands_of_some h, List.length_append]
            have := length_removeCommands_le n rest (by omega)
            omega
          obtain ⟨k, hk⟩ := ih (removeCommands s) hlen
          refine ⟨k + 1, ?_⟩
          rw [Function.iterate_succ_apply]
          exact hk
    exact key s.length s le_rfl
  · exact removeCommands_of_parse_nil

/-- Witness for C4 on a concrete text: `"hello"` has no directives, a
single (zeroth) strip pass suffices, and stripping leaves it unchanged. -/
theorem c4_witness :
    parse "hello".data = [] ∧
    parse (removeCommands^[0] "hello".data) = [] ∧
    removeCommands "hello".data = "hello".data := by
  have h : parse "hello".data = [] := parse_of_none (by decide)
  exact ⟨h, h, (c4_strip_reparse "hello".data).2 h⟩

/-- The text refuting the single-pass round-trip claim: removing the
inner `add_summary` block splices the surrounding text into a new,
parseable `add_summary` block. -/
def c4bad : List Char := "<add_summary<add_summary>x</add_summary>>y</add_summary>".data

/-- C4 counterexample: one strip pass over `c4bad` leaves a text that
still parses to one directive, so strip-then-reparse does not yield zero
directives. -/
theorem c4_counterexample : (parse (removeCommands c4bad)).length = 1 := by
  have h1 : scanCommand c4bad =
      some ("<add_summary".data, .addSummary, "x".data, ">y</add_summary>".data) := by decide
  have h2 : scanCommand ">y</add_summary>".data = none := by decide
  have hrc : removeCommands c4bad = "<add_summary>y</add_summary>".data := by
    rw [removeCommands_of_some h1, removeCommands_of_none h2]
    decide
  rw [hrc]
  have h3 : scanCommand "<add_summary>y</add_summary>".data =
      some ([], .addSummary, "y".data, []) := by decide
  rw [parse_of_some h3, parse_of_none (by decide)]
  rfl

/-- The failing input for the dispatcher's result-position contract: a
single `edit_summary` directive with no fields, which parses to one
command that fails validation. -/
def c1bad : List Char := "<edit_summary></edit_summary>".data

/-- C1 (code behaviour at the failing input): the text parses to exactly
one command, but `processResponse` returns an empty results list — the
invalid command is skipped with `continue` and no error result is pushed
for its position, so `results` does not correspond index-wise to
`commands`. -/
theorem c1_invalid_command_result_dropped :
    ((processResponse defaultApiOpts defaultEmbeddingProvider c1bad (some "chat")
        SysState.init).1.commands.length = 1) ∧
    ((processResponse defaultApiOpts defaultEmbeddingProvider c1bad (some "chat")
        SysState.init).1.results.length = 0) := by
  have hscan : scanCommand c1bad = some ([], .editSummary, [], []) := by decide
  have hparse : parse c1bad = [⟨.editSummary, parseCommandParams []⟩] := by
    rw [parse_of_some hscan, parse_of_none (by decide)]
  have hvalid : validateCommand ⟨.editSummary, parseCommandParams []⟩ = false := by decide
  constructor
  · unfold processResponse
    dsimp only
    rw [hparse]
    rfl
  · unfold processResponse
    dsimp only
    rw [hparse]
    rw [List.foldl_cons, hvalid]
    rfl

/-- C7 (amended): a `retrieve_user_data` directive is valid exactly when
at least one of `key` / `query` is truthy; in particular both absent is
invalid, and both present is also valid. -/
theorem c7_retrieve_validation (p : CommandParams) :
    (validateCommand ⟨.retrieveUserData, p⟩ = true ↔
      optTruthyS p.key = true ∨ optTruthyS p.query = true) ∧
    (optTruthyS p.key = true → optTruthyS p.query = true →
      validateCommand ⟨.retrieveUserData, p⟩ = true) := by
  constructor
  · show (optTruthyS p.key || optTruthyS p.query) = true ↔ _
    exact Bool.or_eq_true_iff
  · intro hk _
    show (optTruthyS p.key || optTruthyS p.query) = true
    rw [hk]
    rfl

/-- C7 counterexample: with both `key` and `query` present the source
validator accepts the directive, while the claim calls it invalid. -/
theorem c7_counterexample :
    validateCommand ⟨.retrieveUserData,
      { CommandParams.empty with key := some "k", query := some "q" }⟩ = true ∧
    ({ CommandParams.empty with key := some "k", query := some "q" } :
      CommandParams).key.isSome = true ∧
    ({ CommandParams.empty with key := some "k", query := some "q" } :
      CommandParams).query.isSome = true := by decide

/-- Witness for C7 at a concrete both-present parameter set. -/
theorem c7_witness :
    validateCommand ⟨.retrieveUserData,
      { CommandParams.empty with key := some "k2", query := some "q2" }⟩ = true :=
  (c7_retrieve_validation _).2 (by decide) (by decide)

theorem length_bumpAt (v : List Nat) (i : Nat) : (bumpAt v i).length = v.length := by
  simp [bumpAt]

theorem length_textToVector (text : String) : (textToVector text).length = 26 := by
  unfold textToVector
  dsimp only
  have hc : ∀ (l : List Char) (v : List Nat),
      (l.foldl (fun v c => match letterIndex c with | some i => bumpAt v i | none => v)
        v).length = v.length := by
    intro l
    induction l with
    | nil => intro v; rfl
    | cons c cs ih =>
      intro v
      rw [List.foldl_cons]
      cases letterIndex c with
      | some i => rw [ih]; exact length_bumpAt v i
      | none => exact ih v
  split
  · rw [List.length_map, hc]; rfl
  · rw [List.length_map, hc]; rfl

/-- The entry used to exhibit the provider divergence. -/
def c5entry : SummaryEntry := ⟨"id0", "chat", "ab", none, none, none, 0, 0, 1⟩

/-- A configured non-default embedding provider: it returns `[1]` for
every text, which differs from the letter-frequency embedding. -/
def c5provider : EmbeddingProvider := fun _ => [(1 : ℚ)]

/-- C5: the embedding provider is hardwired out of the scoring path.
The vector `RagsManager.addEntry` stores for an indexed entry is always
`textToVector(entry.context)`, for every configured provider — the
provider's embedding only lands in the metadata; and `retrieve` is
completely insensitive to the configured provider (its query embedding
is computed and discarded).  At the concrete failing input the
configured provider's embedding differs from the stored/scored vector. -/
theorem c5_embedding_provider_hardwired :
    (∀ (p : EmbeddingProvider) (e : SummaryEntry) (st : SysState),
      ((ragsAddEntry p e st).1).vector = textToVector e.context ∧
      ((ragsAddEntry p e st).1).metadata.embedding = some (p e.context)) ∧
    (∀ (p₁ p₂ : EmbeddingProvider) (q : String) (opts : RagsRetrievalOpts) (st : SysState),
      ragsRetrieve p₁ q opts st = ragsRetrieve p₂ q opts st) ∧
    (((ragsAddEntry c5provider c5entry SysState.init).1).vector = textToVector "ab" ∧
      c5provider "ab" ≠ textToVector "ab") := by
  refine ⟨fun p e st => ⟨rfl, rfl⟩, fun p₁ p₂ q opts st => rfl, rfl, ?_⟩
  intro h
  have h26 := length_textToVector "ab"
  rw [← h] at h26
  exact absurd h26 (by decide)

/-- Timestamp well-formedness: every stored entry was last modified
before the current clock value (every stored timestamp was drawn from an
earlier `new Date()` call) and was created no later than it was
modified.  This holds in every reachable state. -/
def TimeWF (st : SysState) : Prop :=
  ∀ e ∈ st.entries, e.modifiedAt < st.clock ∧ e.createdAt ≤ e.modifiedAt

/-- Members of a saved list are the saved entry or old members. -/
theorem mem_saveEntry {x e : SummaryEntry} {l : List SummaryEntry}
    (h : x ∈ saveEntry e l) : x = e ∨ x ∈ l := by
  unfold saveEntry at h
  by_cases hany : l.any (fun y => y.id == e.id)
  · rw [if_pos hany] at h
    obtain ⟨y, hy, hxy⟩ := List.mem_map.mp h
    by_cases hid : y.id == e.id
    · rw [if_pos hid] at hxy; exact Or.inl hxy.symm
    · rw [if_neg hid] at hxy; exact Or.inr (hxy ▸ hy)
  · rw [if_neg hany] at h
    rcases List.mem_append.mp h with h | h
    · exact Or.inr h
    · exact Or.inl (List.mem_singleton.mp h)

/-- C3: a successful update returns the record with `version` bumped by
one, a strictly larger `modified_at`, and an unchanged `created_at`
(hence `created_at ≤ modified_at` still holds); timestamp
well-formedness is preserved, so the properties hold across every chain
of successful updates. -/
theorem c3_update_version_and_timestamps (st : SysState) (idStr : String) (u : UpdateFields)
    (e : SummaryEntry) (hwf : TimeWF st) (hget : getById idStr st = some e) :
    ∃ e', (updateSummary idStr u st).1 = some e' ∧
      e'.version = e.version + 1 ∧
      e.modifiedAt < e'.modifiedAt ∧
      e'.createdAt = e.createdAt ∧
      e'.createdAt ≤ e'.modifiedAt ∧
      TimeWF (updateSummary idStr u st).2 := by
  have hmem : e ∈ st.entries := List.mem_of_find?_eq_some hget
  obtain ⟨hclk, hcm⟩ := hwf e hmem
  unfold updateSummary
  rw [hget]
  refine ⟨_, rfl, rfl, hclk, rfl, le_of_lt (lt_of_le_of_lt hcm hclk), ?_⟩
  intro x hx
  dsimp only at hx
  rcases mem_saveEntry hx with rfl | hx
  · exact ⟨Nat.lt_succ_self _, le_of_lt (lt_of_le_of_lt hcm hclk)⟩
  · obtain ⟨h1, h2⟩ := hwf x hx
    exact ⟨Nat.lt_succ_of_lt h1, h2⟩

/-- A concrete one-entry state for the C3 witness. -/
def c3state : SysState := ⟨[⟨uuid 0, "c", "x", none, none, none, 0, 0, 1⟩], [], [], 1, 1⟩

/-- Witness for C3: a concrete successful update. -/
theorem c3_witness :
    TimeWF c3state ∧
    getById (uuid 0) c3state = some ⟨uuid 0, "c", "x", none, none, none, 0, 0, 1⟩ ∧
    ∃ e', (updateSummary (uuid 0) ⟨some "y", none, none⟩ c3state).1 = some e' ∧
      e'.version = 1 + 1 ∧
      (0 : Nat) < e'.modifiedAt ∧
      e'.createdAt = 0 ∧
      e'.createdAt ≤ e'.modifiedAt ∧
      TimeWF (updateSummary (uuid 0) ⟨some "y", none, none⟩ c3state).2 := by
  have hwf : TimeWF c3state := by
    intro e he
    rcases List.mem_singleton.mp he with rfl
    exact ⟨Nat.zero_lt_one, le_rfl⟩
  have hget : getById (uuid 0) c3state =
      some ⟨uuid 0, "c", "x", none, none, none, 0, 0, 1⟩ := by decide
  exact ⟨hwf, hget,
    c3_update_version_and_timestamps c3state (uuid 0) ⟨some "y", none, none⟩ _ hwf hget⟩

theorem insertBy_ne_nil {keep : α → α → Bool} {x : α} :
    ∀ {l : List α}, insertBy keep x l ≠ [] := by
  intro l
  cases l with
  | nil => simp [insertBy]
  | cons y ys =>
    by_cases h : keep x y
    · rw [insertBy, if_pos h]; simp
    · rw [insertBy, if_neg h]; simp

theorem sortKeep_eq_nil_iff {keep : α → α → Bool} {l : List α} :
    sortKeep keep l = [] ↔ l = [] := by
  cases l with
  | nil => simp [sortKeep]
  | cons y ys =>
    simp only [sortKeep]
    constructor
    · intro h; exact absurd h insertBy_ne_nil
    · intro h; exact absurd h (by simp)

/-- A category of the form `user_data.<key>` is always truthy. -/
theorem optTruthyS_userData (key : String) :
    optTruthyS (some ("user_data." ++ key)) = true := rfl

/-- The candidate set of a `retrieve_user_data` key lookup: the records
of the chat whose category is exactly `user_data.<key>`, as the
category-filtered chat query computes it. -/
def keyCandidates (chatId key : String) (st : SysState) : List SummaryEntry :=
  (st.entries.filter (fun e => e.chatId == chatId)).filter
    (fun e => e.category == some ("user_data." ++ key))

/-- C8: a `retrieve_user_data` key lookup considers exactly the records
of the scope with category `user_data.<key>`; when none exists it
returns `{ key, value: null }` (no error, no state change); otherwise it
returns the content of a candidate whose `createdAt` is maximal among
all candidates. -/
theorem c8_retrieve_by_key (api : ApiOpts) (provider : EmbeddingProvider)
    (st : SysState) (chatId key : String) (hkey : optTruthyS (some key) = true) :
    (handleRetrieveUserData api provider
        ⟨.retrieveUserData, { CommandParams.empty with key := some key }⟩ chatId st).2 = st ∧
    (keyCandidates chatId key st = [] →
      (handleRetrieveUserData api provider
        ⟨.retrieveUserData, { CommandParams.empty with key := some key }⟩ chatId st).1 =
        .userKey key none none) ∧
    (keyCandidates chatId key st ≠ [] →
      ∃ e ∈ keyCandidates chatId key st,
        (handleRetrieveUserData api provider
          ⟨.retrieveUserData, { CommandParams.empty with key := some key }⟩ chatId st).1 =
          .userKey key (some e.context) (some e) ∧
        ∀ e' ∈ keyCandidates chatId key st, e'.createdAt ≤ e.createdAt) := by
  have hq : queryEntries chatId
      { QueryOpts.empty with category := some ("user_data." ++ key) } st =
      keyCandidates chatId key st := by
    unfold queryEntries keyCandidates QueryOpts.empty
    dsimp only
    rw [if_pos (optTruthyS_userData key), if_neg (by simp [optTruthyP])]
  unfold handleRetrieveUserData
  dsimp only [CommandParams.empty]
  rw [hkey, if_pos rfl]
  dsimp only [Option.getD]
  rw [hq]
  cases hsort : sortKeep (fun a b => decide (b.createdAt ≤ a.createdAt))
      (keyCandidates chatId key st) with
  | nil =>
    have hnil : keyCandidates chatId key st = [] := sortKeep_eq_nil_iff.mp hsort
    exact ⟨rfl, fun _ => rfl, fun hne => absurd hnil hne⟩
  | cons e rest =>
    have htot : ∀ a b : SummaryEntry, decide (b.createdAt ≤ a.createdAt) = true ∨
        decide (a.createdAt ≤ b.createdAt) = true := by
      intro a b
      rcases Nat.le_total b.createdAt a.createdAt with h | h
      · exact Or.inl (decide_eq_true h)
      · exact Or.inr (decide_eq_true h)
    have htr : ∀ a b c : SummaryEntry, decide (b.createdAt ≤ a.createdAt) = true →
        decide (c.createdAt ≤ b.createdAt) = true →
        decide (c.createdAt ≤ a.createdAt) = true := fun a b c h1 h2 =>
      decide_eq_true (Nat.le_trans (of_decide_eq_true h2) (of_decide_eq_true h1))
    have hdom := sortKeep_head_dominates htot htr hsort
    refine ⟨rfl, fun hnil => ?_, fun _ => ⟨e, hdom.1, rfl, ?_⟩⟩
    · rw [hnil] at hsort
      simp [sortKeep] at hsort
    · intro e' he'
      exact of_decide_eq_true (hdom.2 e' he')

/-- API options used by concrete dispatcher witnesses (RAGs disabled,
threshold 0). -/
noncomputable def w8api : ApiOpts := ⟨false, 5, 0, "default"⟩

/-- A store holding two generations of the keyed fact
`user_data.location` in chat `"c"`. -/
def c8state : SysState :=
  ⟨[⟨uuid 0, "c", "New York", some "user_data.location", some .medium, none, 0, 0, 1⟩,
    ⟨uuid 1, "c", "San Francisco", some "user_data.location", some .medium, none, 1, 1, 1⟩],
   [], [], 2, 2⟩

/-- Witness for C8: the unknown-key lookup answers `value: null`, and
the known-key lookup answers with the most recently created value. -/
theorem c8_witness :
    (optTruthyS (some "nope") = true ∧
      keyCandidates "c" "nope" SysState.init = [] ∧
      (handleRetrieveUserData w8api defaultEmbeddingProvider
        ⟨.retrieveUserData, { CommandParams.empty with key := some "nope" }⟩ "c"
        SysState.init).1 = .userKey "nope" none none) ∧
    (optTruthyS (some "location") = true ∧
      keyCandidates "c" "location" c8state ≠ [] ∧
      ∃ e ∈ keyCandidates "c" "location" c8state,
        (handleRetrieveUserData w8api defaultEmbeddingProvider
          ⟨.retrieveUserData, { CommandParams.empty with key := some "location" }⟩ "c"
          c8state).1 = .userKey "location" (some e.context) (some e) ∧
        ∀ e' ∈ keyCandidates "c" "location" c8state, e'.createdAt ≤ e.createdAt) := by
  have h1 : keyCandidates "c" "nope" SysState.init = [] := by decide
  have h2 : keyCandidates "c" "location" c8state ≠ [] := by decide
  exact ⟨⟨by decide, h1,
      (c8_retrieve_by_key w8api defaultEmbeddingProvider SysState.init "c" "nope"
        (by decide)).2.1 h1⟩,
    ⟨by decide, h2,
      (c8_retrieve_by_key w8api defaultEmbeddingProvider c8state "c" "location"
        (by decide)).2.2 h2⟩⟩

/-- Id well-formedness: every stored id was drawn from an earlier value
of the uuid counter, and ids are pairwise distinct.  This holds in every
reachable state. -/
def IdWF (st : SysState) : Prop :=
  (∀ e ∈ st.entries, e.id ∈ (List.range st.nextUuid).map uuid) ∧
  (st.entries.map (fun e => e.id)).Nodup

/-- The id drawn by a create is fresh for a well-formed store. -/
theorem fresh_uuid_not_mem {st : SysState} (hwf : IdWF st) :
    ∀ e ∈ st.entries, e.id ≠ uuid st.nextUuid := by
  intro e he heq
  obtain ⟨k, hk, hku⟩ := List.mem_map.mp (hwf.1 e he)
  have := uuid_injective (hku.trans heq)
  subst this
  exact absurd (List.mem_range.mp hk) (lt_irrefl _)

/-- Saving an entry with a fresh id appends it. -/
theorem saveEntry_of_fresh {e : SummaryEntry} {l : List SummaryEntry}
    (h : ∀ x ∈ l, x.id ≠ e.id) : saveEntry e l = l ++ [e] := by
  unfold saveEntry
  rw [if_neg]
  intro hany
  obtain ⟨x, hx, hxe⟩ := List.any_eq_true.mp hany
  exact h x hx (by simpa using hxe)

/-- Capacity cleanup of one chat deletes nothing from any other chat
when ids are distinct. -/
theorem cleanup_frame (opts : StorageOpts) (chatId : String) (st : SysState)
    (hnodup : (st.entries.map (fun e => e.id)).Nodup) :
    (cleanupOldEntries opts chatId st).entries.filter (fun e => !(e.chatId == chatId)) =
      st.entries.filter (fun e => !(e.chatId == chatId)) := by
  unfold cleanupOldEntries
  by_cases hlen : (st.entries.filter (fun e => e.chatId == chatId)).length ≤
      opts.maxEntriesPerChat
  · rw [if_pos hlen]
  · rw [if_neg hlen]
    dsimp only
    rw [List.filter_comm]
    refine List.filter_eq_self.mpr ?_
    intro e he
    obtain ⟨hemem, hechat⟩ := List.mem_filter.mp he
    rw [Bool.not_eq_true']  -- goal: any … = false
    by_contra hany
    obtain ⟨d, hd, hde⟩ := List.any_eq_true.mp (Bool.of_not_eq_false hany)
    have hdsort : d ∈ sortKeep (fun a b => decide (a.modifiedAt ≤ b.modifiedAt))
        (st.entries.filter (fun e => e.chatId == chatId)) := List.take_subset _ _ hd
    have hdmem := mem_sortKeep.mp hdsort
    obtain ⟨hdent, hdchat⟩ := List.mem_filter.mp hdmem
    have hid : d.id = e.id := by simpa using hde
    have : d = e := List.inj_on_of_nodup_map hnodup hdent hemem hid
    subst this
    rw [hdchat] at hechat
    exact absurd hechat (by simp)

/-- C10: a create into chat `chatId` (including its capacity cleanup)
leaves the sublist of records belonging to every other chat completely
unchanged — no record of another chat is deleted or modified. -/
theorem c10_create_frame (opts : StorageOpts) (chatId context : String)
    (category : Option String) (priority : Option Priority) (lineNumber : Option String)
    (st : SysState) (hwf : IdWF st) :
    ((createSummary opts chatId context category priority lineNumber st).2.entries.filter
      (fun e => !(e.chatId == chatId))) =
      st.entries.filter (fun e => !(e.chatId == chatId)) := by
  unfold createSummary
  dsimp only
  have hsave : saveEntry
      ⟨uuid st.nextUuid, chatId, context, category, priority, lineNumber,
        st.clock, st.clock, 1⟩ st.entries =
      st.entries ++
        [⟨uuid st.nextUuid, chatId, context, category, priority, lineNumber,
          st.clock, st.clock, 1⟩] :=
    saveEntry_of_fresh (fun x hx => fresh_uuid_not_mem hwf x hx)
  have hframe1 : (st.entries ++
      [(⟨uuid st.nextUuid, chatId, context, category, priority, lineNumber,
        st.clock, st.clock, 1⟩ : SummaryEntry)]).filter (fun e => !(e.chatId == chatId)) =
      st.entries.filter (fun e => !(e.chatId == chatId)) := by
    rw [List.filter_append, List.filter_cons]
    simp
  have hnodup1 : ((st.entries ++
      [(⟨uuid st.nextUuid, chatId, context, category, priority, lineNumber,
        st.clock, st.clock, 1⟩ : SummaryEntry)]).map (fun e => e.id)).Nodup := by
    rw [List.map_append]
    refine List.nodup_append.mpr ⟨hwf.2, List.nodup_singleton _, ?_⟩
    intro a ha hb
    obtain ⟨x, hx, hxa⟩ := List.mem_map.mp ha
    have hid : a = uuid st.nextUuid := by simpa using hb
    exact fresh_uuid_not_mem hwf x hx (hxa.trans hid)
  by_cases hac : opts.enableAutoCleanup
  · rw [if_pos hac]
    rw [show ({ st with
        entries := saveEntry ⟨uuid st.nextUuid, chatId, context, category, priority,
          lineNumber, st.clock, st.clock, 1⟩ st.entries,
        nextUuid := st.nextUuid + 1, clock := st.clock + 1 } : SysState) =
      { st with
        entries := st.entries ++
          [⟨uuid st.nextUuid, chatId, context, category, priority, lineNumber,
            st.clock, st.clock, 1⟩],
        nextUuid := st.nextUuid + 1, clock := st.clock + 1 } from by rw [hsave]]
    rw [cleanup_frame _ _ _ hnodup1]
    exact hframe1
  · rw [if_neg hac]
    dsimp only
    rw [hsave]
    exact hframe1

/-- A store holding one record of another chat, for the C10 witness. -/
def c10state : SysState := ⟨[⟨uuid 0, "d", "x", none, none, none, 0, 0, 1⟩], [], [], 1, 1⟩

/-- Witness for C10 at a concrete well-formed state. -/
theorem c10_witness :
    IdWF c10state ∧
    ((createSummary defaultStorageOpts "c" "y" none none none c10state).2.entries.filter
      (fun e => !(e.chatId == "c"))) =
      c10state.entries.filter (fun e => !(e.chatId == "c")) :=
  have hwf : IdWF c10state := ⟨by decide, by decide⟩
  ⟨hwf, c10_create_frame defaultStorageOpts "c" "y" none none none c10state hwf⟩

/-! ## C2: capacity eviction along a sequence of creates -/

/-- The per-create arguments of a create sequence. -/
structure CreateArgs where
  context : String
  category : Option String
  priority : Option Priority
  lineNumber : Option String

/-- The entry produced by the `k`-th create of a sequence started on a
fresh engine: uuid counter and clock both equal `k` at that point. -/
def mkEntry (chatId : String) (args : Nat → CreateArgs) (k : Nat) : SummaryEntry :=
  ⟨uuid k, chatId, (args k).context, (args k).category, (args k).priority,
    (args k).lineNumber, k, k, 1⟩

/-- The state after `N` creates into chat `chatId` on a store configured
with `maxEntriesPerChat = L` and auto-cleanup enabled, starting from a
fresh engine. -/
def createSeq (L : Nat) (chatId : String) (args : Nat → CreateArgs) : Nat → SysState
  | 0 => SysState.init
  | k + 1 =>
    (createSummary ⟨L, true⟩ chatId (args k).context (args k).category
      (args k).priority (args k).lineNumber (createSeq L chatId args k)).2

/-- One create step preserves the shape invariant: the store holds the
`min k L` most recent creations, as a contiguous index range. -/
theorem createStep (L : Nat) (chatId : String) (args : Nat → CreateArgs) (k : Nat)
    (st : SysState)
    (he : st.entries = (List.range' (k - L) (min k L)).map (mkEntry chatId args))
    (hu : st.nextUuid = k) (hc : st.clock = k) :
    ((createSummary ⟨L, true⟩ chatId (args k).context (args k).category
        (args k).priority (args k).lineNumber st).2.entries =
      (List.range' ((k + 1) - L) (min (k + 1) L)).map (mkEntry chatId args)) ∧
    ((createSummary ⟨L, true⟩ chatId (args k).context (args k).category
        (args k).priority (args k).lineNumber st).2.nextUuid = k + 1) ∧
    ((createSummary ⟨L, true⟩ chatId (args k).context (args k).category
        (args k).priority (args k).lineNumber st).2.clock = k + 1) := by
  have hsm : (k - L) + min k L = k := by omega
  unfold createSummary
  dsimp only
  rw [hu, hc, he]
  rw [show (⟨uuid k, chatId, (args k).context, (args k).category, (args k).priority,
      (args k).lineNumber, k, k, 1⟩ : SummaryEntry) = mkEntry chatId args k from rfl]
  have hfresh : ∀ x ∈ (List.range' (k - L) (min k L)).map (mkEntry chatId args),
      x.id ≠ (mkEntry chatId args k).id := by
    intro x hx heq
    obtain ⟨j, hj, rfl⟩ := List.mem_map.mp hx
    have hjk := (List.mem_range'_1.mp hj).2
    have : j = k := uuid_injective heq
    omega
  have hsave : saveEntry (mkEntry chatId args k)
      ((List.range' (k - L) (min k L)).map (mkEntry chatId args)) =
      (List.range' (k - L) (min k L + 1)).map (mkEntry chatId args) := by
    rw [saveEntry_of_fresh hfresh, List.range'_1_concat, List.map_append, hsm]
    rfl
  rw [hsave]
  rw [if_pos rfl]
  have hchat : ∀ mlen s, (((List.range' s mlen).map (mkEntry chatId args)).filter
      (fun e => e.chatId == chatId)) = (List.range' s mlen).map (mkEntry chatId args) := by
    intro mlen s
    refine List.filter_eq_self.mpr ?_
    intro x hx
    obtain ⟨j, _, rfl⟩ := List.mem_map.mp hx
    simp [mkEntry]
  unfold cleanupOldEntries
  dsimp only
  rw [hchat]
  rw [List.length_map, List.length_range']
  by_cases hkL : k < L
  · rw [if_pos (by omega)]
    dsimp only
    have h1 : k - L = (k + 1) - L := by omega
    have h2 : min k L + 1 = min (k + 1) L := by omega
    rw [h1, h2]
    exact ⟨rfl, rfl, rfl⟩
  · have hm : min k L = L := by omega
    rw [if_neg (by omega)]
    dsimp only
    rw [hm]
    have hpw : ((List.range' (k - L) (L + 1)).map (mkEntry chatId args)).Pairwise
        (fun a b => (decide (a.modifiedAt ≤ b.modifiedAt)) = true) := by
      rw [List.pairwise_map]
      exact (List.pairwise_lt_range' _ _).imp
        (fun h => decide_eq_true (le_of_lt h))
    rw [sortKeep_of_pairwise hpw]
    rw [show L + 1 - L = 1 from by omega]
    rw [List.range'_succ, List.map_cons]
    rw [show (1 : Nat) = 0 + 1 from rfl, List.take_succ_cons, List.take_zero]
    rw [List.filter_cons]
    rw [if_neg (by simp)]
    have hrest : (((List.range' (k - L + 1) L).map (mkEntry chatId args)).filter
        (fun e => !(List.any [mkEntry chatId args (k - L)] (fun d => d.id == e.id)))) =
        (List.range' (k - L + 1) L).map (mkEntry chatId args) := by
      refine List.filter_eq_self.mpr ?_
      intro x hx
      obtain ⟨j, hj, rfl⟩ := List.mem_map.mp hx
      have hjge := (List.mem_range'_1.mp hj).1
      simp only [List.any_cons, List.any_nil, Bool.or_false, Bool.not_eq_true']
      rw [beq_eq_false_iff_ne]
      intro heq
      have : k - L = j := uuid_injective heq
      omega
    rw [hrest]
    have h1 : k - L + 1 = (k + 1) - L := by omega
    have h2 : min (k + 1) L = L := by omega
    rw [h1, h2]
    exact ⟨rfl, rfl, rfl⟩

/-- The shape of the store along the canonical create sequence: after
`N` creates the store holds exactly the `min N L` most recent creations
in creation order, and counter and clock equal `N`. -/
theorem createSeq_spec (L : Nat) (chatId : String) (args : Nat → CreateArgs) :
    ∀ N : Nat,
      (createSeq L chatId args N).entries =
        (List.range' (N - L) (min N L)).map (mkEntry chatId args) ∧
      (createSeq L chatId args N).nextUuid = N ∧
      (createSeq L chatId args N).clock = N := by
  intro N
  induction N with
  | zero =>
    refine ⟨?_, rfl, rfl⟩
    simp [createSeq, SysState.init]
  | succ k ih =>
    obtain ⟨he, hu, hc⟩ := ih
    exact createStep L chatId args k _ he hu hc

/-- C2 (amended): along any sequence of creates into one scope with
limit `L` and auto-cleanup enabled, after each create the scope holds at
most `L` records; after `N > L` creates exactly `L` remain and they are
the `L` most recent creations (the ones with the largest `modified_at`);
and provided `L ≥ 1` the record created by the triggering create is
present immediately after that create — it is never evicted by its own
cleanup. -/
theorem c2_capacity_eviction (L : Nat) (chatId : String) (args : Nat → CreateArgs)
    (N : Nat) :
    ((createSeq L chatId args N).entries =
      (List.range' (N - L) (min N L)).map (mkEntry chatId args)) ∧
    (getByChatId chatId (createSeq L chatId args N)).length ≤ L ∧
    (L < N → (getByChatId chatId (createSeq L chatId args N)).length = L) ∧
    (∀ e ∈ (createSeq L chatId args N).entries, N - L ≤ e.modifiedAt) ∧
    (1 ≤ L → ∀ k, k < N →
      mkEntry chatId args k ∈ (createSeq L chatId args (k + 1)).entries) := by
  obtain ⟨he, _, _⟩ := createSeq_spec L chatId args N
  have hchat : getByChatId chatId (createSeq L chatId args N) =
      (createSeq L chatId args N).entries := by
    unfold getByChatId
    refine List.filter_eq_self.mpr ?_
    intro x hx
    rw [he] at hx
    obtain ⟨j, _, rfl⟩ := List.mem_map.mp hx
    simp [mkEntry]
  have hlen : (getByChatId chatId (createSeq L chatId args N)).length = min N L := by
    rw [hchat, he, List.length_map, List.length_range']
  refine ⟨he, ?_, ?_, ?_, ?_⟩
  · rw [hlen]; omega
  · intro hLN; rw [hlen]; omega
  · intro e hemem
    rw [he] at hemem
    obtain ⟨j, hj, rfl⟩ := List.mem_map.mp hemem
    have := (List.mem_range'_1.mp hj).1
    exact this
  · intro hL k _
    obtain ⟨he', _, _⟩ := createSeq_spec L chatId args (k + 1)
    rw [he']
    refine List.mem_map.mpr ⟨k, List.mem_range'_1.mpr ⟨by omega, by omega⟩, rfl⟩

/-- The argument function used by the concrete C2 witness. -/
def c2args : Nat → CreateArgs := fun _ => ⟨"x", none, none, none⟩

/-- Witness for C2 at `L = 1`, `N = 2`: one record remains, it is the
second (most recent) creation, and it survived its own create. -/
theorem c2_witness :
    ((1 : Nat) < 2 ∧ (getByChatId "c" (createSeq 1 "c" c2args 2)).length = 1) ∧
    ((1 : Nat) ≤ 1 ∧ (1 : Nat) < 2 ∧
      mkEntry "c" c2args 1 ∈ (createSeq 1 "c" c2args 2).entries) ∧
    ((2 : Nat) - 1 ≤ (mkEntry "c" c2args 1).modifiedAt) := by
  have h := c2_capacity_eviction 1 "c" c2args 2
  have hmem : mkEntry "c" c2args 1 ∈ (createSeq 1 "c" c2args 2).entries :=
    h.2.2.2.2 le_rfl 1 (by omega)
  exact ⟨⟨by omega, h.2.2.1 (by omega)⟩, ⟨le_rfl, by omega, hmem⟩,
    h.2.2.2.1 _ hmem⟩

/-- C2 counterexample for the claim as stated: with limit `L = 0` the
record created by a create is evicted by that create's own cleanup — the
store is empty immediately after the create returns the new entry. -/
theorem c2_zero_limit_counterexample :
    (createSummary ⟨0, true⟩ "c" "x" none none none SysState.init).1 ∉
      (createSummary ⟨0, true⟩ "c" "x" none none none SysState.init).2.entries ∧
    (createSummary ⟨0, true⟩ "c" "x" none none none SysState.init).2.entries = [] := by
  decide
